import Mathlib

set_option linter.unusedVariables false

/-!
Verification of the PV_Live API client (`pvlive_api/pvlive.py`).

The Python source is shallowly embedded below.  Timestamps are modelled as
wall-clock microsecond counts (`Nat`) since the epoch; `datetime` field
accessors (`minute`, `second`, `microsecond`) become modular arithmetic on
that count, and `timedelta` arithmetic becomes plain addition/subtraction
(for the fixed-offset timezones the client uses, Python's aware-datetime
arithmetic on these fields agrees with this model).  Network effects are
modelled by oracles: a fetch takes the sequence of attempt outcomes as a
function, and a query operation takes the service's decoded response as an
argument, so that each embedded operation is a pure function whose request
trace and result can be inspected.
-/

namespace PVLiveSpec

/-! ## Time model -/

def usPerSecond : Nat := 1000000

def usPerMinute : Nat := 60000000

def usPerHour : Nat := 3600000000

def usPerDay : Nat := 86400000000

/-- `dt.minute` of a wall-clock instant measured in microseconds. -/
def dtMinute (t : Nat) : Nat := t / usPerMinute % 60

/-- `dt.second` of a wall-clock instant measured in microseconds. -/
def dtSecond (t : Nat) : Nat := t / usPerSecond % 60

/-- `dt.microsecond` of a wall-clock instant measured in microseconds. -/
def dtMicrosecond (t : Nat) : Nat := t % usPerSecond

/-- `PVLive._nearest_hh` (pvlive.py lines 309-313):

    if not(dt.minute % 30 == 0 and dt.second == 0 and dt.microsecond == 0):
        dt = dt - timedelta(minutes=dt.minute%30, seconds=dt.second) \
               + timedelta(minutes=30)
    return dt

Note the adjustment subtracts the minutes-past-the-half-hour and the seconds
but never the microseconds, exactly as in the source. -/
def nearest_hh (t : Nat) : Nat :=
  if dtMinute t % 30 == 0 && dtSecond t == 0 && dtMicrosecond t == 0 then t
  else t - (dtMinute t % 30 * usPerMinute + dtSecond t * usPerSecond) + 30 * usPerMinute

/-- A timestamp lies on a half-hour boundary: minute 0 or 30, zero seconds
and zero sub-second part. -/
def onHalfHour (t : Nat) : Prop :=
  dtMinute t % 30 = 0 ∧ dtSecond t = 0 ∧ dtMicrosecond t = 0

instance (t : Nat) : Decidable (onHalfHour t) := by
  unfold onHalfHour; infer_instance

/-! ## Retrying fetcher (`PVLive._fetch_url`, pvlive.py lines 284-307)

One HTTP attempt (`requests.get` + `raise_for_status`) either yields a body,
raises an `HTTPError` (an HTTP error status), or raises some other transport
exception.  The sequence of outcomes the network would produce is the
oracle `attempts : Nat → Outcome α` (attempt `i` is `attempts i`). -/

inductive Outcome (α : Type) where
  | ok (body : α)
  | httpError
  | transportError
  deriving DecidableEq

inductive LoopExit (α : Type) where
  | success (body : α)
  | exhausted
  | transport
  deriving DecidableEq

structure LoopTrace (α : Type) where
  exit : LoopExit α
  attemptsMade : Nat
  sleeps : List Nat
  deriving DecidableEq

/-- The `while not success and try_counter < self.retries + 1` loop of
`_fetch_url`.  `counter` is the number of attempts already made (so the next
attempt executed is `attempts counter`), `budget` is the number of loop
iterations still permitted (`retries + 1 - try_counter`), and `delay` is the
current back-off delay.  On an HTTP error status the loop sleeps `delay`,
doubles it and continues; on any other exception it re-raises (`transport`);
on success it stops. -/
def fetchLoop (attempts : Nat → Outcome α) : Nat → Nat → Nat → LoopTrace α
  | _, 0, _ => ⟨.exhausted, 0, []⟩
  | counter, budget + 1, delay =>
    match attempts counter with
    | .ok body => ⟨.success body, 1, []⟩
    | .httpError =>
      let rest := fetchLoop attempts (counter + 1) budget (delay * 2)
      ⟨rest.exit, rest.attemptsMade + 1, delay :: rest.sleeps⟩
    | .transportError => ⟨.transport, 1, []⟩

inductive FetchResult (β : Type) where
  | ok (v : β)
  /-- `PVLiveException("Error communicating with the PV_Live API.")` -/
  | commError
  /-- a non-HTTP-status exception re-raised by the bare `raise` -/
  | transportFatal
  deriving DecidableEq

structure FetchTrace (β : Type) where
  result : FetchResult β
  attemptsMade : Nat
  sleeps : List Nat
  deriving DecidableEq

/-- `PVLive._fetch_url` (pvlive.py lines 284-307): run the retry loop with
`try_counter = 0` and `delay = 1`; if the loop ended without success raise a
`PVLiveException`; otherwise parse the body (`json.loads`) and raise a
`PVLiveException` when parsing fails.  `parse` models `json.loads`, `none`
meaning the body is not valid JSON. -/
def fetch_url (attempts : Nat → Outcome α) (parse : α → Option β) (retries : Nat) :
    FetchTrace β :=
  let t := fetchLoop attempts 0 (retries + 1) 1
  match t.exit with
  | .success body =>
    match parse body with
    | some v => ⟨.ok v, t.attemptsMade, t.sleeps⟩
    | none => ⟨.commError, t.attemptsMade, t.sleeps⟩
  | .exhausted => ⟨.commError, t.attemptsMade, t.sleeps⟩
  | .transport => ⟨.transportFatal, t.attemptsMade, t.sleeps⟩

/-! ## Rows, responses and the window chunker -/

/-- A decoded JSON value appearing in a result row (`null` or a number; the
numeric model uses exact rationals for Python floats). -/
inductive Jv where
  | null
  | num (q : ℚ)
  deriving DecidableEq

/-- One element of the service's `data` array: a row list. -/
abbrev Row := List Jv

/-- `x[2]`, the generation field of a row (rows returned by the service have
at least three fields). -/
def rowGen (r : Row) : Jv := r.getD 2 .null

/-- The decoded JSON response: a `data` array of rows and a `meta` array of
column names. -/
structure ApiResponse where
  data : List Row
  meta : List String
  deriving DecidableEq

/-- `self.max_range["national"]` = `timedelta(days=365)`. -/
def max_range_national : Nat := 365 * usPerDay

/-- `self.max_range["regional"]` = `timedelta(days=30)`. -/
def max_range_regional : Nat := 30 * usPerDay

/-- The chunk windows requested by the `while request_start < end` loop of
`PVLive.between` (pvlive.py lines 170-175), in order: each iteration
requests `(request_start, min(end, request_start + max_range))` and then
advances `request_start` by `max_range + timedelta(minutes=30)`. -/
def betweenChunks (maxRange rs e : Nat) : List (Nat × Nat) :=
  if rs < e then
    (rs, min e (rs + maxRange)) :: betweenChunks maxRange (rs + maxRange + 30 * usPerMinute) e
  else []
termination_by e - rs
decreasing_by
  simp_wf
  have h30 : 0 < 30 * usPerMinute := by norm_num [usPerMinute]
  omega

/-- The rows accumulated by the same loop (`data += response["data"]`),
where `oracle` maps a requested chunk window to the `data` array the
service returns for it. -/
def betweenData (oracle : Nat × Nat → List Row) (maxRange rs e : Nat) : List Row :=
  if rs < e then
    oracle (rs, min e (rs + maxRange)) ++
      betweenData oracle maxRange (rs + maxRange + 30 * usPerMinute) e
  else []
termination_by e - rs
decreasing_by
  simp_wf
  have h30 : 0 < 30 * usPerMinute := by norm_num [usPerMinute]
  omega

/-- `PVLive.between` (pvlive.py lines 127-179), in row-tuple output mode
(`data_frame=False`).  The type/timezone validation on lines 161-164
constructs a `PVLiveException` but never raises it, so it has no effect and
is not modelled.  The single source loop is rendered by its two observable
components: the chunk windows it passes to `_compile_params`/`_query_api`,
and the rows it accumulates.  Returns `(requested windows, rows)`. -/
def between (oracle : Nat × Nat → List Row) (pes_id : Int) (start end_ : Nat) :
    List (Nat × Nat) × List Row :=
  let s := nearest_hh start
  let e := nearest_hh end_
  let maxRange := if pes_id == 0 then max_range_national else max_range_regional
  (betweenChunks maxRange s e, betweenData oracle maxRange s e)

/-! ## Daily aggregates (`day_peak`, `day_energy`) -/

/-- The float literal `-1e308` used as the comparison stand-in for a null
generation value; modelled as the exact rational `-(10 ^ 308)` (the exact
IEEE-double value of the literal differs from this only far beyond any
generation value, and nothing below depends on those digits). -/
def nullSentinel : ℚ := -(10 ^ 308)

/-- `x[2] if x[2] is not None else -1e308` (pvlive.py line 218). -/
def genKey : Jv → ℚ
  | .null => nullSentinel
  | .num q => q

/-- `max(range(len(gens)), key=gens.__getitem__)` (pvlive.py line 219):
Python's `max` scans the indices in order, keeping the current best and
replacing it only on a strictly greater key, so the first maximal index
wins.  `best` is the running answer, `i` the next index, `fuel` the number
of scan steps still allowed (`l.length` suffices). -/
def argmaxGo (l : List ℚ) : Nat → Nat → Nat → Nat
  | best, _, 0 => best
  | best, i, fuel + 1 =>
    if i < l.length then
      argmaxGo l (if l.getD best 0 < l.getD i 0 then i else best) (i + 1) fuel
    else best

/-- `index_max` of pvlive.py line 219 (only evaluated on nonempty lists). -/
def argmaxFirst (l : List ℚ) : Nat := argmaxGo l 0 1 l.length

/-- `PVLive.day_peak` (pvlive.py lines 181-223), row-tuple mode.  `d` is the
day, in days since the epoch; `start = datetime.combine(d, time(0, 30))`
and `end = start + timedelta(days=1) - timedelta(minutes=30)`.  The date
type check on lines 211-212 constructs a `PVLiveException` but never raises
it, so it has no effect.  Returns the requested window and the selected row
(or the null placeholder when `data` is empty). -/
def day_peak (d : Nat) (response : ApiResponse) : (Nat × Nat) × Row :=
  let start := d * usPerDay + 30 * usPerMinute
  let end_ := start + usPerDay - 30 * usPerMinute
  ((start, end_),
    if response.data = [] then [.null, .null, .null]
    else
      response.data.getD (argmaxFirst (response.data.map fun x => genKey (rowGen x))) [])

/-- `PVLive.day_energy` (pvlive.py lines 225-253): same daily window;
`sum([x[2] if x[2] is not None else 0 for x in response["data"]]) * 0.5`
when `data` is nonempty, `None` otherwise. -/
def day_energy (d : Nat) (response : ApiResponse) : (Nat × Nat) × Option ℚ :=
  let start := d * usPerDay + 30 * usPerMinute
  let end_ := start + usPerDay - 30 * usPerMinute
  ((start, end_),
    if response.data = [] then none
    else
      some ((response.data.map fun x =>
        match rowGen x with
        | .num q => q
        | .null => 0).sum * (1 / 2)))

/-! ## Request parameters (`_compile_params`, pvlive.py lines 255-265)

`start.isoformat().replace('+00:00', 'Z')` is modelled at the character
level.  A Python `datetime` is its wall-clock microsecond count plus its
`tzinfo` UTC offset (in minutes); `isoformat` renders
`YYYY-MM-DDTHH:MM:SS[.ffffff]` followed by `+HH:MM`/`-HH:MM` when the
datetime is timezone-aware, and `str.replace` substitutes every
(leftmost, non-overlapping) occurrence of `+00:00` with `Z`. -/

/-- A Python `datetime` as the client sees it: wall-clock microseconds since
the epoch plus the `tzinfo` UTC offset in minutes (`pytz.UTC` is `some 0`;
`none` is a naive datetime). -/
structure PyDT where
  us : Nat
  tzOffsetMinutes : Option Int
  deriving DecidableEq

/-- The decimal digit character of `n % 10`. -/
def digitChar (n : Nat) : Char :=
  if n % 10 = 0 then '0' else if n % 10 = 1 then '1' else if n % 10 = 2 then '2'
  else if n % 10 = 3 then '3' else if n % 10 = 4 then '4' else if n % 10 = 5 then '5'
  else if n % 10 = 6 then '6' else if n % 10 = 7 then '7' else if n % 10 = 8 then '8'
  else '9'

/-- `n` rendered as `width` decimal digits, most significant first, zero
padded (the fixed-width fields of `isoformat`). -/
def padNum (width n : Nat) : List Char :=
  (List.range width).reverse.map fun i => digitChar (n / 10 ^ i)

/-- Gregorian date for a count of days since 1970-01-01 (the standard
civil-from-days conversion underlying `datetime`'s date rendering). -/
def civilFromDays (z0 : Nat) : Nat × Nat × Nat :=
  let z := z0 + 719468
  let era := z / 146097
  let doe := z % 146097
  let yoe := (doe - doe / 1460 + doe / 36524 - doe / 146096) / 365
  let y := yoe + era * 400
  let doy := doe - (365 * yoe + yoe / 4 - yoe / 100)
  let mp := (5 * doy + 2) / 153
  let dom := doy - (153 * mp + 2) / 5 + 1
  let m := if mp < 10 then mp + 3 else mp - 9
  (if m ≤ 2 then y + 1 else y, m, dom)

/-- The `YYYY-MM-DDTHH:MM:SS[.ffffff]` part of `datetime.isoformat` (the
`.ffffff` field is omitted when the microsecond is zero, as in Python). -/
def isoDateTimeChars (us : Nat) : List Char :=
  let ymd := civilFromDays (us / usPerDay)
  let rem := us % usPerDay
  padNum 4 ymd.1 ++ ['-'] ++ padNum 2 ymd.2.1 ++ ['-'] ++ padNum 2 ymd.2.2 ++
    ['T'] ++ padNum 2 (rem / usPerHour) ++ [':'] ++ padNum 2 (rem / usPerMinute % 60) ++
    [':'] ++ padNum 2 (rem / usPerSecond % 60) ++
    (if rem % usPerSecond = 0 then [] else ['.'] ++ padNum 6 (rem % usPerSecond))

/-- The `±HH:MM` offset suffix `isoformat` appends for an aware datetime. -/
def isoOffsetChars (off : Int) : List Char :=
  (if off < 0 then '-' else '+') ::
    (padNum 2 (off.natAbs / 60) ++ [':'] ++ padNum 2 (off.natAbs % 60))

/-- `datetime.isoformat()`: naive datetimes get no offset suffix. -/
def isoformat (t : PyDT) : List Char :=
  isoDateTimeChars t.us ++
    (match t.tzOffsetMinutes with
     | none => []
     | some off => isoOffsetChars off)

/-- The pattern `'+00:00'`. -/
def zPat : List Char := ['+', '0', '0', ':', '0', '0']

/-- `str.replace('+00:00', 'Z')` (pvlive.py lines 261, 264): scan left to
right, replacing every leftmost non-overlapping occurrence of the pattern.
`fuel` bounds the scan; `l.length` suffices since each step consumes at
least one character. -/
def replaceGo : Nat → List Char → List Char
  | 0, l => l
  | _ + 1, [] => []
  | fuel + 1, c :: rest =>
    if zPat.isPrefixOf (c :: rest) then 'Z' :: replaceGo fuel (rest.drop 5)
    else c :: replaceGo fuel rest

def replacePlus0000 (l : List Char) : List Char := replaceGo l.length l

/-- `t.isoformat().replace('+00:00', 'Z')`. -/
def serializeTs (t : PyDT) : List Char := replacePlus0000 (isoformat t)

/-- The compiled query parameters (a Python dict with up to three keys). -/
structure Params where
  extra_fields : Option String
  start : Option (List Char)
  end_ : Option (List Char)
  deriving DecidableEq

/-- `PVLive._compile_params` (pvlive.py lines 255-265):

    params = {}
    if extra_fields: params["extra_fields"] = extra_fields
    if start is not None: params["start"] = start.isoformat()...
    end = start if (start is not None and end is None) else end
    if end is not None: params["end"] = end.isoformat()...

(an empty `extra_fields` string is falsy, so the key is omitted). -/
def compile_params (extra_fields : String) (start : Option PyDT) (end_ : Option PyDT) :
    Params :=
  { extra_fields := if extra_fields = "" then none else some extra_fields
    start := start.map serializeTs
    end_ := (if start.isSome && end_.isNone then start else end_).map serializeTs }

/-! ## Point queries (`latest`, `at_time`) -/

inductive PvError where
  /-- a `PVLiveException` raised by caller-input validation -/
  | invalidArgument
  /-- a `PVLiveException` raised by `_fetch_url` -/
  | commError
  deriving DecidableEq

/-- `PVLive.latest` (pvlive.py lines 45-83), row-tuple mode: raises unless
`pes_id` is in `range(0, 328)`, then issues one request with no time bounds
and returns the first row, or `(None, None, None)` when `data` is empty.
(The `isinstance` checks cannot fail in this typed embedding.)  Returns the
requests issued and the outcome. -/
def latest (pes_id : Int) (extra_fields : String) (response : ApiResponse) :
    List Params × Except PvError Row :=
  if pes_id < 0 ∨ 327 < pes_id then ([], .error .invalidArgument)
  else
    ([compile_params extra_fields none none],
      .ok (if response.data = [] then [.null, .null, .null] else response.data.headD []))

/-- `PVLive.at_time` (pvlive.py lines 85-125), row-tuple mode.  Line 117
constructs `PVLiveException(...)` for a non-datetime or naive `dt` but never
raises it (the `raise` keyword is missing in the source), so execution
continues unconditionally: `dt` is normalized by `_nearest_hh`, one request
is compiled and issued, and the first row (or the null placeholder) is
returned even for a naive timestamp.  `pes_id` is not validated at all. -/
def at_time (dt : PyDT) (pes_id : Int) (extra_fields : String) (response : ApiResponse) :
    List Params × Except PvError Row :=
  let dtRounded : PyDT := ⟨nearest_hh dt.us, dt.tzOffsetMinutes⟩
  ([compile_params extra_fields (some dtRounded) none],
    .ok (if response.data = [] then [.null, .null, .null] else response.data.headD []))

/-! ## Concrete inputs used by witnesses and counterexamples -/

/-- Attempt outcomes `[HTTP error, success 7, HTTP error, ...]`. -/
def att1 : Nat → Outcome Nat
  | 1 => .ok 7
  | _ => .httpError

/-- Attempt outcomes `[HTTP error, transport error, ...]`. -/
def att2 : Nat → Outcome Nat
  | 0 => .httpError
  | _ => .transportError

/-- A parser accepting only the body `7`. -/
def parse1 : Nat → Option Nat := fun b => if b = 7 then some b else none

/-- A service returning one constant row for every chunk. -/
def oracleConst : Nat × Nat → List Row := fun _ => [[Jv.num 1]]

/-- A response whose rows all carry a null generation value. -/
def allNullResp : ApiResponse := ⟨[[.num 7, .num 1, .null], [.num 7, .num 2, .null]], []⟩

/-- A response with generation values `[2, 5, null, 5]` and distinct
timestamp fields. -/
def twoFiveResp : ApiResponse :=
  ⟨[[.num 1, .num 11, .num 2], [.num 1, .num 12, .num 5],
    [.num 1, .num 13, .null], [.num 1, .num 14, .num 5]], []⟩

/-- A timezone-aware timestamp with UTC offset +01:00. -/
def tzPlusOne : PyDT := ⟨0, some 60⟩

/-- A timezone-aware timestamp in UTC (`pytz.UTC`, offset +00:00). -/
def tzUTC : PyDT := ⟨0, some 0⟩

/-! ## Lemmas and claim theorems -/

/-! ### Loop lemmas -/

theorem delay_doubling (delay b : Nat) :
    delay :: (List.range b).map (fun i => delay * 2 * 2 ^ i) =
      (List.range (b + 1)).map (fun i => delay * 2 ^ i) := by
  rw [List.range_succ_eq_map, List.map_cons, List.map_map]
  congr 1
  · simp
  · congr 1
    funext i
    simp only [Function.comp, pow_succ]
    ring

theorem fetchLoop_attempts_le (attempts : Nat → Outcome α) :
    ∀ budget counter delay,
      (fetchLoop attempts counter budget delay).attemptsMade ≤ budget := by
  intro budget
  induction budget with
  | zero => intro counter delay; simp [fetchLoop]
  | succ b ih =>
    intro counter delay
    cases h : attempts counter <;> simp [fetchLoop, h]
    exact ih (counter + 1) (delay * 2)

/-- If every attempt in the budget fails with an HTTP status, the loop
exhausts the budget, sleeping the doubling delays. -/
theorem fetchLoop_all_http (attempts : Nat → Outcome α) :
    ∀ budget counter delay,
      (∀ j, j < budget → attempts (counter + j) = .httpError) →
      fetchLoop attempts counter budget delay =
        ⟨.exhausted, budget, (List.range budget).map (fun i => delay * 2 ^ i)⟩ := by
  intro budget
  induction budget with
  | zero => intro counter delay _; simp [fetchLoop]
  | succ b ih =>
    intro counter delay h
    have h0 : attempts counter = .httpError := by
      have := h 0 (Nat.succ_pos b); simpa using this
    have hrest : ∀ j, j < b → attempts (counter + 1 + j) = .httpError := by
      intro j hj
      have := h (j + 1) (by omega)
      simpa [Nat.add_assoc, Nat.add_comm 1 j] using this
    simp only [fetchLoop, h0, ih (counter + 1) (delay * 2) hrest]
    rw [delay_doubling]

/-- If the first `k` attempts fail with HTTP statuses and attempt `k`
succeeds (within budget), the loop stops there with `k + 1` attempts and `k`
sleeps. -/
theorem fetchLoop_first_success (attempts : Nat → Outcome α) :
    ∀ budget counter delay k b, k < budget →
      (∀ j, j < k → attempts (counter + j) = .httpError) →
      attempts (counter + k) = .ok b →
      fetchLoop attempts counter budget delay =
        ⟨.success b, k + 1, (List.range k).map (fun i => delay * 2 ^ i)⟩ := by
  intro budget
  induction budget with
  | zero => intro counter delay k b hk; omega
  | succ bud ih =>
    intro counter delay k b hk hpre hok
    cases k with
    | zero =>
      have h0 : attempts counter = .ok b := by simpa using hok
      simp [fetchLoop, h0]
    | succ k' =>
      have h0 : attempts counter = .httpError := by
        have := hpre 0 (Nat.succ_pos k'); simpa using this
      have hpre' : ∀ j, j < k' → attempts (counter + 1 + j) = .httpError := by
        intro j hj
        have := hpre (j + 1) (by omega)
        simpa [Nat.add_assoc, Nat.add_comm 1 j] using this
      have hok' : attempts (counter + 1 + k') = .ok b := by
        have : counter + 1 + k' = counter + (k' + 1) := by omega
        rw [this]; exact hok
      have := ih (counter + 1) (delay * 2) k' b (by omega) hpre' hok'
      simp only [fetchLoop, h0, this]
      rw [delay_doubling]

/-- If the first `k` attempts fail with HTTP statuses and attempt `k` raises
a non-HTTP transport exception (within budget), the loop re-raises at once:
`k + 1` attempts, and no sleep for the transport failure. -/
theorem fetchLoop_transport (attempts : Nat → Outcome α) :
    ∀ budget counter delay k, k < budget →
      (∀ j, j < k → attempts (counter + j) = .httpError) →
      attempts (counter + k) = .transportError →
      fetchLoop attempts counter budget delay =
        ⟨.transport, k + 1, (List.range k).map (fun i => delay * 2 ^ i)⟩ := by
  intro budget
  induction budget with
  | zero => intro counter delay k hk; omega
  | succ bud ih =>
    intro counter delay k hk hpre htr
    cases k with
    | zero =>
      have h0 : attempts counter = .transportError := by simpa using htr
      simp [fetchLoop, h0]
    | succ k' =>
      have h0 : attempts counter = .httpError := by
        have := hpre 0 (Nat.succ_pos k'); simpa using this
      have hpre' : ∀ j, j < k' → attempts (counter + 1 + j) = .httpError := by
        intro j hj
        have := hpre (j + 1) (by omega)
        simpa [Nat.add_assoc, Nat.add_comm 1 j] using this
      have htr' : attempts (counter + 1 + k') = .transportError := by
        have : counter + 1 + k' = counter + (k' + 1) := by omega
        rw [this]; exact htr
      have := ih (counter + 1) (delay * 2) k' (by omega) hpre' htr'
      simp only [fetchLoop, h0, this]
      rw [delay_doubling]

/-- If the loop exhausts its budget, every attempt in the budget was an HTTP
error status. -/
theorem fetchLoop_exhausted_all_http (attempts : Nat → Outcome α) :
    ∀ budget counter delay,
      (fetchLoop attempts counter budget delay).exit = .exhausted →
      ∀ j, j < budget → attempts (counter + j) = .httpError := by
  intro budget
  induction budget with
  | zero => intro counter delay _ j hj; omega
  | succ b ih =>
    intro counter delay hex j hj
    cases h : attempts counter with
    | ok body => simp [fetchLoop, h] at hex
    | transportError => simp [fetchLoop, h] at hex
    | httpError =>
      cases j with
      | zero => simpa using h
      | succ j' =>
        have hex' : (fetchLoop attempts (counter + 1) b (delay * 2)).exit = .exhausted := by
          simpa [fetchLoop, h] using hex
        have := ih (counter + 1) (delay * 2) hex' j' (by omega)
        simpa [Nat.add_assoc, Nat.add_comm 1 j'] using this

/-- If the loop ends with success, some attempt within the budget succeeded
and every earlier attempt was an HTTP error status. -/
theorem fetchLoop_success_first (attempts : Nat → Outcome α) :
    ∀ budget counter delay b,
      (fetchLoop attempts counter budget delay).exit = .success b →
      ∃ k, k < budget ∧ (∀ j, j < k → attempts (counter + j) = .httpError) ∧
        attempts (counter + k) = .ok b := by
  intro budget
  induction budget with
  | zero => intro counter delay b hex; simp [fetchLoop] at hex
  | succ bud ih =>
    intro counter delay b hex
    cases h : attempts counter with
    | ok body =>
      have hb : body = b := by
        simpa [fetchLoop, h] using hex
      exact ⟨0, Nat.succ_pos bud, by omega, by simpa [hb] using h⟩
    | transportError => simp [fetchLoop, h] at hex
    | httpError =>
      have hex' : (fetchLoop attempts (counter + 1) bud (delay * 2)).exit = .success b := by
        simpa [fetchLoop, h] using hex
      obtain ⟨k, hk, hpre, hok⟩ := ih (counter + 1) (delay * 2) b hex'
      refine ⟨k + 1, by omega, ?_, ?_⟩
      · intro j hj
        cases j with
        | zero => simpa using h
        | succ j' =>
          have := hpre j' (by omega)
          simpa [Nat.add_assoc, Nat.add_comm 1 j'] using this
      · have : counter + (k + 1) = counter + 1 + k := by omega
        rw [this]; exact hok

/-! ### Chunk-loop lemmas -/

theorem betweenChunks_zero (maxRange rs e : Nat) (h : ¬ rs < e) :
    betweenChunks maxRange rs e = [] := by
  rw [betweenChunks, if_neg h]

theorem betweenChunks_step (maxRange rs e : Nat) (h : rs < e) :
    betweenChunks maxRange rs e =
      (rs, min e (rs + maxRange)) ::
        betweenChunks maxRange (rs + maxRange + 30 * usPerMinute) e := by
  rw [betweenChunks, if_pos h]

theorem betweenData_zero (oracle : Nat × Nat → List Row) (maxRange rs e : Nat)
    (h : ¬ rs < e) : betweenData oracle maxRange rs e = [] := by
  rw [betweenData, if_neg h]

theorem betweenData_step (oracle : Nat × Nat → List Row) (maxRange rs e : Nat)
    (h : rs < e) :
    betweenData oracle maxRange rs e =
      oracle (rs, min e (rs + maxRange)) ++
        betweenData oracle maxRange (rs + maxRange + 30 * usPerMinute) e := by
  rw [betweenData, if_pos h]

/-- The accumulated rows are the concatenation, in chunk order, of the rows
the oracle returns for each requested chunk. -/
theorem betweenData_eq_flatMap (oracle : Nat × Nat → List Row) (maxRange : Nat) :
    ∀ fuel rs e, e - rs ≤ fuel →
      betweenData oracle maxRange rs e = (betweenChunks maxRange rs e).flatMap oracle := by
  intro fuel
  induction fuel with
  | zero =>
    intro rs e hf
    rw [betweenData_zero oracle maxRange rs e (by omega),
      betweenChunks_zero maxRange rs e (by omega)]
    simp
  | succ f ih =>
    intro rs e hf
    by_cases h : rs < e
    · rw [betweenData_step oracle maxRange rs e h, betweenChunks_step maxRange rs e h]
      have h30 : 0 < 30 * usPerMinute := by norm_num [usPerMinute]
      have := ih (rs + maxRange + 30 * usPerMinute) e (by omega)
      simp [this]
    · rw [betweenData_zero oracle maxRange rs e h, betweenChunks_zero maxRange rs e h]
      simp

/-- Every requested chunk starts inside the window and ends at
`min end (start + max_range)`. -/
theorem betweenChunks_shape (maxRange : Nat) :
    ∀ fuel rs e, e - rs ≤ fuel →
      ∀ c ∈ betweenChunks maxRange rs e, c.1 < e ∧ c.2 = min e (c.1 + maxRange) := by
  intro fuel
  induction fuel with
  | zero =>
    intro rs e hf c hc
    rw [betweenChunks_zero maxRange rs e (by omega)] at hc
    simp at hc
  | succ f ih =>
    intro rs e hf c hc
    by_cases h : rs < e
    · rw [betweenChunks_step maxRange rs e h] at hc
      rcases List.mem_cons.mp hc with hc | hc
      · subst hc; exact ⟨h, rfl⟩
      · have h30 : 0 < 30 * usPerMinute := by norm_num [usPerMinute]
        exact ih (rs + maxRange + 30 * usPerMinute) e (by omega) c hc
    · rw [betweenChunks_zero maxRange rs e h] at hc
      simp at hc

/-! ### Stable-argmax lemmas -/

/-- Loop invariant of the `max` scan: starting from a running best that is
maximal among (and the first maximum of) the indices before `i`, the scan
returns the first maximal index of the whole list. -/
theorem argmaxGo_spec (l : List ℚ) :
    ∀ fuel i best, l.length ≤ i + fuel → best < i → i ≤ l.length →
      (∀ j, j < i → l.getD j 0 ≤ l.getD best 0) →
      (∀ j, j < best → l.getD j 0 < l.getD best 0) →
      argmaxGo l best i fuel < l.length ∧
        (∀ j, j < l.length → l.getD j 0 ≤ l.getD (argmaxGo l best i fuel) 0) ∧
        (∀ j, j < argmaxGo l best i fuel →
          l.getD j 0 < l.getD (argmaxGo l best i fuel) 0) := by
  intro fuel
  induction fuel with
  | zero =>
    intro i best hfuel hbi hil hmax hfirst
    have hieq : i = l.length := by omega
    subst hieq
    exact ⟨by simpa [argmaxGo] using hbi, fun j hj => hmax j hj, hfirst⟩
  | succ f ih =>
    intro i best hfuel hbi hil hmax hfirst
    by_cases hi : i < l.length
    · have hstep : argmaxGo l best i (f + 1) =
          argmaxGo l (if l.getD best 0 < l.getD i 0 then i else best) (i + 1) f := by
        simp [argmaxGo, hi]
      rw [hstep]
      by_cases hcmp : l.getD best 0 < l.getD i 0
      · rw [if_pos hcmp]
        refine ih (i + 1) i (by omega) (by omega) (by omega) ?_ ?_
        · intro j hj
          rcases Nat.lt_succ_iff_lt_or_eq.mp hj with hj | hj
          · exact le_of_lt (lt_of_le_of_lt (hmax j hj) hcmp)
          · subst hj; exact le_refl _
        · intro j hj
          exact lt_of_le_of_lt (hmax j hj) hcmp
      · rw [if_neg hcmp]
        refine ih (i + 1) best (by omega) (by omega) (by omega) ?_ hfirst
        intro j hj
        rcases Nat.lt_succ_iff_lt_or_eq.mp hj with hj | hj
        · exact hmax j hj
        · subst hj; exact le_of_not_lt hcmp
    · have hieq : i = l.length := by omega
      have hstep : argmaxGo l best i (f + 1) = best := by
        simp [argmaxGo, hi]
      rw [hstep]
      subst hieq
      exact ⟨hbi, fun j hj => hmax j hj, hfirst⟩

/-- `argmaxFirst` returns the first maximal index of a nonempty list. -/
theorem argmaxFirst_spec (l : List ℚ) (h : l ≠ []) :
    argmaxFirst l < l.length ∧
      (∀ j, j < l.length → l.getD j 0 ≤ l.getD (argmaxFirst l) 0) ∧
      (∀ j, j < argmaxFirst l → l.getD j 0 < l.getD (argmaxFirst l) 0) := by
  have hlen : 0 < l.length := List.length_pos.mpr h
  exact argmaxGo_spec l l.length 1 0 (by omega) (by omega) (by omega)
    (by intro j hj; interval_cases j; exact le_refl _)
    (by intro j hj; omega)

/-- On a list of equal keys the first index wins. -/
theorem argmaxFirst_const (l : List ℚ) (h : l ≠ []) (q : ℚ)
    (hconst : ∀ j, j < l.length → l.getD j 0 = q) : argmaxFirst l = 0 := by
  obtain ⟨hlt, _, hfirst⟩ := argmaxFirst_spec l h
  by_contra hne
  have h0 : (0 : Nat) < argmaxFirst l := Nat.pos_of_ne_zero fun h0 => hne h0
  have := hfirst 0 h0
  rw [hconst 0 (by omega), hconst (argmaxFirst l) hlt] at this
  exact lt_irrefl q this

/-! ### Serialization lemmas -/

theorem digitChar_ne_plus (n : Nat) : digitChar n ≠ '+' := by
  unfold digitChar
  repeat' split
  all_goals decide

theorem plus_not_mem_padNum (width n : Nat) : '+' ∉ padNum width n := by
  intro hmem
  simp only [padNum, List.mem_map] at hmem
  obtain ⟨i, -, hi⟩ := hmem
  exact digitChar_ne_plus _ hi

theorem plus_not_mem_isoDateTimeChars (us : Nat) : '+' ∉ isoDateTimeChars us := by
  intro hmem
  simp only [isoDateTimeChars, List.append_assoc, List.mem_append, List.mem_singleton] at hmem
  rcases hmem with h | h | h | h | h | h | h | h | h | h | h | h
  · exact plus_not_mem_padNum _ _ h
  · exact absurd h (by decide)
  · exact plus_not_mem_padNum _ _ h
  · exact absurd h (by decide)
  · exact plus_not_mem_padNum _ _ h
  · exact absurd h (by decide)
  · exact plus_not_mem_padNum _ _ h
  · exact absurd h (by decide)
  · exact plus_not_mem_padNum _ _ h
  · exact absurd h (by decide)
  · exact plus_not_mem_padNum _ _ h
  · split at h
    · simp at h
    · rcases List.mem_append.mp h with h | h
      · exact absurd (List.mem_singleton.mp h) (by decide)
      · exact plus_not_mem_padNum _ _ h

theorem replaceGo_nil (fuel : Nat) : replaceGo fuel [] = [] := by
  cases fuel <;> rfl

/-- Scanning a list that contains no `'+'` followed by the pattern replaces
exactly the final occurrence. -/
theorem replaceGo_no_plus (a : List Char) (ha : '+' ∉ a) :
    ∀ fuel, (a ++ zPat).length ≤ fuel → replaceGo fuel (a ++ zPat) = a ++ ['Z'] := by
  induction a with
  | nil =>
    intro fuel hfuel
    obtain ⟨f, rfl⟩ : ∃ f, fuel = f + 1 := ⟨fuel - 1, by simp [zPat] at hfuel; omega⟩
    simp [replaceGo, zPat, List.isPrefixOf, replaceGo_nil]
  | cons c a ih =>
    intro fuel hfuel
    obtain ⟨f, rfl⟩ : ∃ f, fuel = f + 1 := ⟨fuel - 1, by simp at hfuel; omega⟩
    have hc : c ≠ '+' := fun h => ha (h ▸ List.mem_cons_self c a)
    have hbeq : ('+' == c) = false := beq_eq_false_iff_ne.mpr (Ne.symm hc)
    have hnp : zPat.isPrefixOf (c :: (a ++ zPat)) = false := by
      show (('+' == c) && List.isPrefixOf ['0', '0', ':', '0', '0'] (a ++ zPat)) = false
      rw [hbeq, Bool.false_and]
    have hstep : replaceGo (f + 1) ((c :: a) ++ zPat) = c :: replaceGo f (a ++ zPat) := by
      simp only [List.cons_append, replaceGo, List.append_eq]
      rw [hnp]
      simp
    rw [hstep, ih (fun h => ha (List.mem_cons_of_mem c h)) f (by simp at hfuel ⊢; omega)]
    simp

/-- A UTC (`+00:00`) timestamp serializes to the ISO date-time characters
with a `'Z'` suffix. -/
theorem serializeTs_utc (t : PyDT) (h : t.tzOffsetMinutes = some 0) :
    serializeTs t = isoDateTimeChars t.us ++ ['Z'] := by
  have hoff : isoOffsetChars 0 = zPat := by decide
  have hiso : isoformat t = isoDateTimeChars t.us ++ zPat := by
    rw [isoformat, h]
    exact congrArg (fun l => isoDateTimeChars t.us ++ l) hoff
  rw [serializeTs, replacePlus0000, hiso]
  exact replaceGo_no_plus _ (plus_not_mem_isoDateTimeChars t.us) _ (le_refl _)

/-! ## Helpers for assembling `fetch_url` facts -/

theorem fetch_url_result_eq (attempts : Nat → Outcome α) (parse : α → Option β)
    (retries : Nat) :
    fetch_url attempts parse retries =
      match (fetchLoop attempts 0 (retries + 1) 1).exit with
      | .success body =>
        match parse body with
        | some v => ⟨.ok v, (fetchLoop attempts 0 (retries + 1) 1).attemptsMade,
            (fetchLoop attempts 0 (retries + 1) 1).sleeps⟩
        | none => ⟨.commError, (fetchLoop attempts 0 (retries + 1) 1).attemptsMade,
            (fetchLoop attempts 0 (retries + 1) 1).sleeps⟩
      | .exhausted => ⟨.commError, (fetchLoop attempts 0 (retries + 1) 1).attemptsMade,
          (fetchLoop attempts 0 (retries + 1) 1).sleeps⟩
      | .transport => ⟨.transportFatal, (fetchLoop attempts 0 (retries + 1) 1).attemptsMade,
          (fetchLoop attempts 0 (retries + 1) 1).sleeps⟩ := rfl

theorem one_mul_pow_range (k : Nat) :
    (List.range k).map (fun i => 1 * 2 ^ i) = (List.range k).map (2 ^ ·) := by
  simp

/-- C1: `_fetch_url` makes at most `retries + 1` HTTP GET attempts; it stops
at the first attempt with a successful HTTP status and returns that body
parsed as JSON; before each retry after an HTTP error status it sleeps a
delay that starts at 1 time unit and doubles after each failed attempt; and
it raises the communication error exactly when either all `retries + 1`
attempts end in HTTP error statuses or the first successful body cannot be
parsed as JSON. -/
theorem fetch_url_contract (attempts : Nat → Outcome α) (parse : α → Option β)
    (retries : Nat) :
    (fetch_url attempts parse retries).attemptsMade ≤ retries + 1 ∧
    (∀ k b, k < retries + 1 → (∀ j, j < k → attempts j = .httpError) →
      attempts k = .ok b →
      (fetch_url attempts parse retries).attemptsMade = k + 1 ∧
      (fetch_url attempts parse retries).sleeps = (List.range k).map (2 ^ ·) ∧
      (∀ v, parse b = some v → (fetch_url attempts parse retries).result = .ok v) ∧
      (parse b = none → (fetch_url attempts parse retries).result = .commError)) ∧
    ((∀ j, j < retries + 1 → attempts j = .httpError) →
      (fetch_url attempts parse retries).sleeps =
        (List.range (retries + 1)).map (2 ^ ·)) ∧
    ((fetch_url attempts parse retries).result = .commError ↔
      ((∀ j, j < retries + 1 → attempts j = .httpError) ∨
       (∃ k b, k < retries + 1 ∧ (∀ j, j < k → attempts j = .httpError) ∧
         attempts k = .ok b ∧ parse b = none))) := by
  refine ⟨?_, ?_, ?_, ?_⟩
  · rw [fetch_url_result_eq]
    have h := fetchLoop_attempts_le attempts (retries + 1) 0 1
    split
    · split
      · exact h
      · exact h
    · exact h
    · exact h
  · intro k b hk hpre hok
    have heq := fetchLoop_first_success attempts (retries + 1) 0 1 k b hk
      (fun j hj => by simpa using hpre j hj) (by simpa using hok)
    rw [fetch_url_result_eq, heq]
    cases hp : parse b <;> simp [one_mul_pow_range, hp]
  · intro hall
    have heq := fetchLoop_all_http attempts (retries + 1) 0 1
      (fun j hj => by simpa using hall j hj)
    rw [fetch_url_result_eq, heq]
    simp [one_mul_pow_range]
  · constructor
    · intro hcomm
      rw [fetch_url_result_eq] at hcomm
      split at hcomm
      · rename_i body hex
        split at hcomm
        · rename_i v hp
          simp at hcomm
        · rename_i hp
          right
          obtain ⟨k, hk, hpre, hok⟩ :=
            fetchLoop_success_first attempts (retries + 1) 0 1 body hex
          exact ⟨k, body, hk, fun j hj => by simpa using hpre j hj,
            by simpa using hok, hp⟩
      · rename_i hex
        left
        intro j hj
        simpa using fetchLoop_exhausted_all_http attempts (retries + 1) 0 1 hex j hj
      · rename_i hex
        simp at hcomm
    · intro hdisj
      rcases hdisj with hall | ⟨k, b, hk, hpre, hok, hp⟩
      · have heq := fetchLoop_all_http attempts (retries + 1) 0 1
          (fun j hj => by simpa using hall j hj)
        rw [fetch_url_result_eq, heq]
      · have heq := fetchLoop_first_success attempts (retries + 1) 0 1 k b hk
          (fun j hj => by simpa using hpre j hj) (by simpa using hok)
        rw [fetch_url_result_eq, heq]
        simp [hp]

/-- Witness for C1: attempts `[HTTP error, success 7]`, `retries = 3`:
two attempts, one unit sleep, parsed result returned. -/
theorem fetch_url_contract_witness :
    (fetch_url att1 parse1 3).attemptsMade = 2 ∧
      (fetch_url att1 parse1 3).sleeps = [1] ∧
      (fetch_url att1 parse1 3).result = .ok 7 := by
  obtain ⟨-, h2, -, -⟩ := fetch_url_contract att1 parse1 3
  obtain ⟨ha, hs, hok, -⟩ := h2 1 7 (by omega) (fun j hj => by interval_cases j; rfl) rfl
  exact ⟨ha, by simpa using hs, hok 7 rfl⟩

/-- C6: a failure that is not an HTTP error status is not retried: it
propagates immediately as the uncategorized fatal error, with no backoff
sleep for it and without consuming the remaining retry budget. -/
theorem fetch_url_transport_fatal (attempts : Nat → Outcome α) (parse : α → Option β)
    (retries k : Nat) (hk : k < retries + 1)
    (hpre : ∀ j, j < k → attempts j = .httpError)
    (htr : attempts k = .transportError) :
    (fetch_url attempts parse retries).result = .transportFatal ∧
      (fetch_url attempts parse retries).attemptsMade = k + 1 ∧
      (fetch_url attempts parse retries).sleeps = (List.range k).map (2 ^ ·) := by
  have heq := fetchLoop_transport attempts (retries + 1) 0 1 k hk
    (fun j hj => by simpa using hpre j hj) (by simpa using htr)
  rw [fetch_url_result_eq, heq]
  simp [one_mul_pow_range]

/-- Witness for C6: attempts `[HTTP error, transport error]`, `retries = 3`:
fatal at the second attempt with only the first attempt's sleep. -/
theorem fetch_url_transport_fatal_witness :
    (fetch_url att2 parse1 3).result = .transportFatal ∧
      (fetch_url att2 parse1 3).attemptsMade = 2 ∧
      (fetch_url att2 parse1 3).sleeps = [1] := by
  obtain ⟨h1, h2, h3⟩ := fetch_url_transport_fatal att2 parse1 3 1 (by omega)
    (fun j hj => by interval_cases j; rfl) rfl
  exact ⟨h1, h2, by simpa using h3⟩

/-- C3: on `12:00:00.000001` the rounder returns `12:30:00.000001`, which is
not a half-hour boundary even though the boundary `12:30:00.000000` lies
between the input and the result — the adjustment never clears the
microseconds, so the smallest boundary at or after the input is missed. -/
theorem nearest_hh_fractional_not_boundary :
    nearest_hh 43200000001 = 45000000001 ∧
      ¬ onHalfHour 45000000001 ∧
      onHalfHour 45000000000 ∧
      43200000001 ≤ 45000000000 ∧ (45000000000 : Nat) < 45000000001 := by
  decide

/-- C7: normalizing `12:30:00.500000` twice gives `13:30:00.500000`, not the
single-normalization value `13:00:00.500000`, so the rounder is not
idempotent on inputs with sub-second parts; the claim's concrete examples
`12:01:00 ↦ 12:30:00` and `12:30:00 ↦ 12:30:00` do hold. -/
theorem nearest_hh_not_idempotent :
    nearest_hh (nearest_hh 45000500000) ≠ nearest_hh 45000500000 ∧
      nearest_hh 43260000000 = 45000000000 ∧
      nearest_hh 45000000000 = 45000000000 := by
  decide

/-- C4: `latest` does reject a bad region id before any request, but
`at_time` called with a timezone-naive timestamp raises nothing: the
validation merely constructs an exception and discards it, and one network
request is still compiled and issued. -/
theorem at_time_naive_not_rejected :
    latest (-1) "" ⟨[], []⟩ = ([], .error .invalidArgument) ∧
      (at_time ⟨43260000000, none⟩ 0 "" ⟨[], []⟩).1.length = 1 ∧
      (at_time ⟨43260000000, none⟩ 0 "" ⟨[], []⟩).2 = .ok [.null, .null, .null] := by
  refine ⟨?_, rfl, rfl⟩
  norm_num [latest]

/-- C10: when the normalized start is not strictly before the normalized
end, `between` issues zero requests and returns the empty row list,
raising no error. -/
theorem between_empty_window (oracle : Nat × Nat → List Row) (pes_id : Int) (s e : Nat)
    (h : ¬ nearest_hh s < nearest_hh e) :
    between oracle pes_id s e = ([], []) := by
  show (betweenChunks (if pes_id == 0 then max_range_national else max_range_regional)
          (nearest_hh s) (nearest_hh e),
        betweenData oracle (if pes_id == 0 then max_range_national else max_range_regional)
          (nearest_hh s) (nearest_hh e)) = ([], [])
  rw [betweenChunks_zero _ _ _ h, betweenData_zero _ _ _ _ h]

/-- Witness for C10: a start equal to its end issues nothing. -/
theorem between_empty_window_witness :
    ¬ nearest_hh 0 < nearest_hh 0 ∧ between oracleConst 0 0 0 = ([], []) :=
  ⟨by decide, between_empty_window oracleConst 0 0 0 (by decide)⟩

/-- C2: `between` splits the normalized window into chunks of at most
`max_range` (365 days nationwide, 30 days regional) whose starts advance by
`max_range + 30` minutes; the returned rows are the concatenation of the
chunks' rows in chunk order; a nationwide 400-day window yields exactly the
two chunks `(s, s+365d)` and `(s+365d+30min, e)` — the second starting 30
minutes after the first ends — and a nonempty window within the limit
yields exactly one chunk. -/
theorem between_chunking (oracle : Nat × Nat → List Row) (pes_id : Int) (s e : Nat) :
    (between oracle pes_id s e).2 = ((between oracle pes_id s e).1).flatMap oracle ∧
    (∀ c ∈ (between oracle pes_id s e).1,
      c.1 < nearest_hh e ∧
        c.2 = min (nearest_hh e)
          (c.1 + (if pes_id == 0 then max_range_national else max_range_regional))) ∧
    (pes_id = 0 → nearest_hh e = nearest_hh s + 400 * usPerDay →
      (between oracle pes_id s e).1 =
        [(nearest_hh s, nearest_hh s + 365 * usPerDay),
          (nearest_hh s + 365 * usPerDay + 30 * usPerMinute, nearest_hh e)]) ∧
    (nearest_hh s < nearest_hh e →
      nearest_hh e ≤ nearest_hh s +
        (if pes_id == 0 then max_range_national else max_range_regional) →
      (between oracle pes_id s e).1 = [(nearest_hh s, nearest_hh e)]) := by
  refine ⟨?_, ?_, ?_, ?_⟩
  · show betweenData oracle _ (nearest_hh s) (nearest_hh e) =
      (betweenChunks _ (nearest_hh s) (nearest_hh e)).flatMap oracle
    exact betweenData_eq_flatMap oracle _ (nearest_hh e - nearest_hh s) _ _ (le_refl _)
  · intro c hc
    exact betweenChunks_shape _ (nearest_hh e - nearest_hh s) _ _ (le_refl _) c hc
  · intro hp h400
    subst hp
    show betweenChunks (if (0 : Int) == 0 then max_range_national else max_range_regional)
        (nearest_hh s) (nearest_hh e) = _
    rw [if_pos (by decide), h400]
    have h1 : nearest_hh s < nearest_hh s + 400 * usPerDay := by
      simp only [usPerDay]; omega
    rw [betweenChunks_step _ _ _ h1]
    have hmin1 : min (nearest_hh s + 400 * usPerDay) (nearest_hh s + max_range_national) =
        nearest_hh s + 365 * usPerDay := by
      simp only [usPerDay, max_range_national]; omega
    rw [hmin1]
    have h2 : nearest_hh s + max_range_national + 30 * usPerMinute <
        nearest_hh s + 400 * usPerDay := by
      simp only [usPerDay, usPerMinute, max_range_national]; omega
    rw [betweenChunks_step _ _ _ h2]
    have hmin2 : min (nearest_hh s + 400 * usPerDay)
        (nearest_hh s + max_range_national + 30 * usPerMinute + max_range_national) =
        nearest_hh s + 400 * usPerDay := by
      simp only [usPerDay, usPerMinute, max_range_national]; omega
    rw [hmin2]
    have h3 : ¬ (nearest_hh s + max_range_national + 30 * usPerMinute +
        max_range_national + 30 * usPerMinute < nearest_hh s + 400 * usPerDay) := by
      simp only [usPerDay, usPerMinute, max_range_national]; omega
    rw [betweenChunks_zero _ _ _ h3]
    simp only [usPerDay, usPerMinute, max_range_national]
  · intro hlt hle
    show betweenChunks (if pes_id == 0 then max_range_national else max_range_regional)
        (nearest_hh s) (nearest_hh e) = _
    rw [betweenChunks_step _ _ _ hlt, min_eq_left hle]
    have hstop : ¬ (nearest_hh s +
        (if pes_id == 0 then max_range_national else max_range_regional) +
        30 * usPerMinute < nearest_hh e) := by
      have h30 : 0 < 30 * usPerMinute := by norm_num [usPerMinute]
      omega
    rw [betweenChunks_zero _ _ _ hstop]

/-- Witness for C2: a nationwide 400-day window from the epoch yields the
two stated chunks with the concatenated rows, and a regional one-day window
yields a single chunk. -/
theorem between_chunking_witness :
    (between oracleConst 0 0 (400 * usPerDay)).1 =
        [(0, 365 * usPerDay), (365 * usPerDay + 30 * usPerMinute, 400 * usPerDay)] ∧
      (between oracleConst 0 0 (400 * usPerDay)).2 =
        ((between oracleConst 0 0 (400 * usPerDay)).1).flatMap oracleConst ∧
      (between oracleConst 7 0 usPerDay).1 = [(0, usPerDay)] := by
  obtain ⟨hdata, -, h400, -⟩ := between_chunking oracleConst 0 0 (400 * usPerDay)
  obtain ⟨-, -, -, hone⟩ := between_chunking oracleConst 7 0 usPerDay
  refine ⟨?_, hdata, ?_⟩
  · have h0 : nearest_hh 0 = 0 := by decide
    have he : nearest_hh (400 * usPerDay) = nearest_hh 0 + 400 * usPerDay := by decide
    have := h400 rfl he
    rw [h0] at this
    rw [this, he, h0]
    simp
  · have := hone (by decide) (by decide)
    rw [(by decide : nearest_hh 0 = 0), (by decide : nearest_hh usPerDay = usPerDay)] at this
    exact this

theorem getD_map_genKey (l : List Row) (j : Nat) (hj : j < l.length) :
    (l.map fun x => genKey (rowGen x)).getD j 0 = genKey (rowGen (l.getD j [])) := by
  have h1 : l[j]? = some l[j] := List.getElem?_eq_getElem hj
  rw [List.getD_eq_getElem?_getD, List.getElem?_map, h1,
    List.getD_eq_getElem?_getD, h1]
  rfl

/-- C5 counterexample: on a (nonempty) day whose rows all have null
generation the code returns the day's first row — carrying its region id
and timestamp — not the `(None, None, None)` placeholder. -/
theorem day_peak_all_null_counterexample :
    (day_peak 0 allNullResp).2 = [.num 7, .num 1, .null] ∧
      (day_peak 0 allNullResp).2 ≠ [.null, .null, .null] := by
  have hgens : allNullResp.data.map (fun x => genKey (rowGen x)) =
      [nullSentinel, nullSentinel] := rfl
  have hmax : argmaxFirst (allNullResp.data.map fun x => genKey (rowGen x)) = 0 := by
    rw [hgens]
    refine argmaxFirst_const _ (by simp) nullSentinel ?_
    intro j hj
    simp only [List.length_cons, List.length_nil] at hj
    interval_cases j <;> rfl
  have hres : (day_peak 0 allNullResp).2 =
      allNullResp.data.getD
        (argmaxFirst (allNullResp.data.map fun x => genKey (rowGen x))) [] := by
    simp only [day_peak]
    rw [if_neg (by simp [allNullResp] : ¬ allNullResp.data = [])]
  rw [hres, hmax]
  exact ⟨rfl, by decide⟩

/-- C5 (amended): `day_peak` queries 00:30 of day `d` through 00:00 of day
`d + 1`; on an empty `data` array it returns the null placeholder; on a
nonempty array it returns the first row whose generation key is maximal,
where a null generation is keyed as the `-1e308` sentinel (below every
present value above that sentinel); when every row's generation is null the
day's first row is returned (not the placeholder); on generation values
`[2, 5, null, 5]` the row at index 1 is returned. -/
theorem day_peak_amended (d : Nat) (resp : ApiResponse) :
    (day_peak d resp).1 = (d * usPerDay + 30 * usPerMinute, (d + 1) * usPerDay) ∧
    (resp.data = [] → (day_peak d resp).2 = [.null, .null, .null]) ∧
    (resp.data ≠ [] →
      ∃ i, i < resp.data.length ∧ (day_peak d resp).2 = resp.data.getD i [] ∧
        (∀ j, j < resp.data.length →
          genKey (rowGen (resp.data.getD j [])) ≤ genKey (rowGen (resp.data.getD i []))) ∧
        (∀ j, j < i →
          genKey (rowGen (resp.data.getD j [])) < genKey (rowGen (resp.data.getD i [])))) ∧
    (resp.data ≠ [] → (∀ r ∈ resp.data, rowGen r = .null) →
      (day_peak d resp).2 = resp.data.getD 0 []) ∧
    (day_peak d twoFiveResp).2 = [.num 1, .num 12, .num 5] := by
  refine ⟨?_, ?_, ?_, ?_, ?_⟩
  · show (d * usPerDay + 30 * usPerMinute,
      d * usPerDay + 30 * usPerMinute + usPerDay - 30 * usPerMinute) = _
    have : d * usPerDay + 30 * usPerMinute + usPerDay - 30 * usPerMinute =
        (d + 1) * usPerDay := by
      simp only [usPerDay, usPerMinute]
      omega
    rw [this]
  · intro h
    simp [day_peak, h]
  · intro hne
    have hlne : resp.data.map (fun x => genKey (rowGen x)) ≠ [] := by
      simpa using hne
    obtain ⟨hlt, hmax, hfirst⟩ :=
      argmaxFirst_spec (resp.data.map fun x => genKey (rowGen x)) hlne
    rw [List.length_map] at hlt
    refine ⟨argmaxFirst (resp.data.map fun x => genKey (rowGen x)), hlt, ?_, ?_, ?_⟩
    · simp [day_peak, hne]
    · intro j hj
      have := hmax j (by simpa using hj)
      rwa [getD_map_genKey _ _ hj, getD_map_genKey _ _ hlt] at this
    · intro j hj
      have := hfirst j hj
      have hjlt : j < resp.data.length := lt_trans hj hlt
      rwa [getD_map_genKey _ _ hjlt, getD_map_genKey _ _ hlt] at this
  · intro hne hnull
    have hlne : resp.data.map (fun x => genKey (rowGen x)) ≠ [] := by
      simpa using hne
    have hmax : argmaxFirst (resp.data.map fun x => genKey (rowGen x)) = 0 := by
      refine argmaxFirst_const _ hlne nullSentinel ?_
      intro j hj
      rw [List.length_map] at hj
      rw [getD_map_genKey _ _ hj]
      rw [hnull (resp.data.getD j []) ?_]
      · rfl
      · have : resp.data.getD j [] = resp.data[j] := by
          rw [List.getD_eq_getElem?_getD, List.getElem?_eq_getElem hj]
          rfl
        rw [this]
        exact List.getElem_mem hj
    simp [day_peak, hne, hmax]
  · have hgens : twoFiveResp.data.map (fun x => genKey (rowGen x)) =
        [2, 5, nullSentinel, 5] := rfl
    have h25 : (2 : ℚ) < 5 := by norm_num
    have hn5 : ¬ ((5 : ℚ) < nullSentinel) := by
      intro h
      have : nullSentinel < 0 := by norm_num [nullSentinel]
      norm_num at h ⊢
      exact absurd (lt_trans h this) (by norm_num)
    have h55 : ¬ ((5 : ℚ) < 5) := lt_irrefl 5
    have hmax : argmaxFirst (twoFiveResp.data.map fun x => genKey (rowGen x)) = 1 := by
      rw [hgens]
      show argmaxGo [2, 5, nullSentinel, 5] 0 1 4 = 1
      rw [show argmaxGo [2, 5, nullSentinel, 5] 0 1 4 =
          argmaxGo [2, 5, nullSentinel, 5]
            (if ([2, 5, nullSentinel, 5] : List ℚ).getD 0 0 <
                ([2, 5, nullSentinel, 5] : List ℚ).getD 1 0 then 1 else 0) 2 3 from by
        simp [argmaxGo]]
      rw [if_pos (by simpa using h25)]
      rw [show argmaxGo [2, 5, nullSentinel, 5] 1 2 3 =
          argmaxGo [2, 5, nullSentinel, 5]
            (if ([2, 5, nullSentinel, 5] : List ℚ).getD 1 0 <
                ([2, 5, nullSentinel, 5] : List ℚ).getD 2 0 then 2 else 1) 3 2 from by
        simp [argmaxGo]]
      rw [if_neg (by simpa using hn5)]
      rw [show argmaxGo [2, 5, nullSentinel, 5] 1 3 2 =
          argmaxGo [2, 5, nullSentinel, 5]
            (if ([2, 5, nullSentinel, 5] : List ℚ).getD 1 0 <
                ([2, 5, nullSentinel, 5] : List ℚ).getD 3 0 then 3 else 1) 4 1 from by
        simp [argmaxGo]]
      rw [if_neg (by simp)]
      simp [argmaxGo]
    have hres : (day_peak d twoFiveResp).2 =
        twoFiveResp.data.getD
          (argmaxFirst (twoFiveResp.data.map fun x => genKey (rowGen x))) [] := by
      simp only [day_peak]
      rw [if_neg (by simp [twoFiveResp] : ¬ twoFiveResp.data = [])]
    rw [hres, hmax]
    rfl

/-- Witness for C5 (amended) at concrete inputs: the all-null day returns
its first row, and the `[2, 5, null, 5]` day returns the index-1 row. -/
theorem day_peak_amended_witness :
    (day_peak 0 allNullResp).1 = (30 * usPerMinute, usPerDay) ∧
      (day_peak 0 allNullResp).2 = allNullResp.data.getD 0 [] ∧
      (day_peak 0 twoFiveResp).2 = [.num 1, .num 12, .num 5] := by
  obtain ⟨hwin, -, -, hnull, hconc⟩ := day_peak_amended 0 allNullResp
  refine ⟨by simpa using hwin, hnull (by simp [allNullResp]) ?_, hconc⟩
  intro r hr
  simp only [allNullResp, List.mem_cons, List.not_mem_nil, or_false] at hr
  rcases hr with h | h <;> subst h <;> rfl

/-- C8: `day_energy` queries 00:30 of day `d` through 00:00 of day `d + 1`
and, on a nonempty `data` array, returns the sum of the generation values
(nulls as 0) multiplied by 0.5; on rows `[2, null, 4]` that is `3` MWh; when
the service returns no data at all it returns null. -/
theorem day_energy_contract (d : Nat) (resp : ApiResponse) :
    (day_energy d resp).1 = (d * usPerDay + 30 * usPerMinute, (d + 1) * usPerDay) ∧
    (resp.data ≠ [] → (day_energy d resp).2 =
      some ((resp.data.map fun x =>
        match rowGen x with
        | .num q => q
        | .null => 0).sum * (1 / 2))) ∧
    (resp.data = [] → (day_energy d resp).2 = none) ∧
    (day_energy d ⟨[[.null, .null, .num 2], [.null, .null, .null],
      [.null, .null, .num 4]], []⟩).2 = some 3 := by
  refine ⟨?_, ?_, ?_, ?_⟩
  · show (d * usPerDay + 30 * usPerMinute,
      d * usPerDay + 30 * usPerMinute + usPerDay - 30 * usPerMinute) = _
    have : d * usPerDay + 30 * usPerMinute + usPerDay - 30 * usPerMinute =
        (d + 1) * usPerDay := by
      simp only [usPerDay, usPerMinute]
      omega
    rw [this]
  · intro h
    simp [day_energy, h]
  · intro h
    simp [day_energy, h]
  · simp only [day_energy]
    rw [if_neg (by simp : ¬ ([[Jv.null, Jv.null, Jv.num 2], [Jv.null, Jv.null, Jv.null],
      [Jv.null, Jv.null, Jv.num 4]] : List Row) = [])]
    norm_num [rowGen]

/-- Witness for C8: an empty response yields null; a one-row response with
generation 2 yields 1 MWh. -/
theorem day_energy_contract_witness :
    (day_energy 0 ⟨[], []⟩).2 = none ∧
      (day_energy 0 ⟨[[.null, .null, .num 2]], []⟩).2 = some 1 := by
  obtain ⟨-, -, hempty, -⟩ := day_energy_contract 0 ⟨[], []⟩
  obtain ⟨-, hsome, -, -⟩ := day_energy_contract 0 ⟨[[.null, .null, .num 2]], []⟩
  refine ⟨hempty rfl, ?_⟩
  rw [hsome (by simp)]
  norm_num [rowGen]

/-- C9 counterexample: a timezone-aware start whose UTC offset is +01:00 is
serialized with its `+01:00` suffix kept verbatim — the value is neither
UTC-normalized nor `Z`-suffixed. -/
theorem compile_params_offset_counterexample :
    (compile_params "" (some tzPlusOne) none).start = some (serializeTs tzPlusOne) ∧
      serializeTs tzPlusOne = isoDateTimeChars 0 ++ ['+', '0', '1', ':', '0', '0'] ∧
      (serializeTs tzPlusOne).getLast? ≠ some 'Z' := by
  refine ⟨rfl, by decide, by decide⟩

/-- C9 (amended): when `start` is given and `end` omitted, the request's
`end` equals `start`; and a timezone-aware timestamp whose UTC offset is
zero serializes as the ISO-8601 date-time characters with a `Z` suffix. -/
theorem compile_params_amended (ef : String) (t : PyDT) :
    (compile_params ef (some t) none).end_ = (compile_params ef (some t) none).start ∧
      (compile_params ef (some t) none).start = some (serializeTs t) ∧
      (t.tzOffsetMinutes = some 0 →
        serializeTs t = isoDateTimeChars t.us ++ ['Z'] ∧
          (serializeTs t).getLast? = some 'Z') := by
  refine ⟨rfl, rfl, fun h => ?_⟩
  have hz := serializeTs_utc t h
  refine ⟨hz, ?_⟩
  rw [hz]
  simp

/-- Witness for C9 (amended) at the UTC epoch timestamp. -/
theorem compile_params_amended_witness :
    (compile_params "" (some tzUTC) none).end_ = (compile_params "" (some tzUTC) none).start ∧
      serializeTs tzUTC = isoDateTimeChars 0 ++ ['Z'] := by
  obtain ⟨he, -, hz⟩ := compile_params_amended "" tzUTC
  exact ⟨he, (hz rfl).1⟩

end PVLiveSpec
